import Mathlib

/-!
Verification of the generic-typing layer of the data-pipeline library
(source: torch/utils/data/typing.py).

The development shallow-embeds the type-expression algebra and the four
components built on it: the structural subtype checker (issubtype and
_issubtype_with_constraints), the fixedness computation (_fixed_type and
_DataPipeType), the specialization engine (_DataPipeMeta.__getitem__ with
_mro_subclass_init), and the iteration-contract validator (_validate_iter).

Modelling conventions
- Python class objects (concrete types and generic origins) are named by
  natural-number references.  The references 0..7 stand for bool, int,
  float, complex, dict, list, set, tuple, and 100..103 for the abstract
  categories Boolean, Integer, numbers.Real, numbers.Complex that the
  TYPE2ABC table maps them to; 9 stands for the Iterator origin (the code
  accepts both typing.Iterator and collections.abc.Iterator as the origin;
  both collapse to the single reference 9 here).
- A type variable carries an identity tag besides its bound and
  constraint list, because Python TypeVar equality is object identity.
- An unparameterized (open) generic alias is generic o none; a
  parameterized one is generic o (some args).  Following the data model of
  the specification, an open generic has an origin and an absent argument
  list, so on the constraint side of the matching helper it satisfies the
  "no args" rule, and on the variant side it decomposes with no arguments.
- Union equality in this model is structural (argument lists compared in
  order), while Python compares Union arguments as sets; theorems below do
  not rely on the order of union members.
- Ellipsis (only reachable through Tuple[X, ...]) and string forward
  references are outside the type-expression model of the specification
  and are not modelled.
- The recursive checker is defined with an explicit fuel parameter so that
  it is a structurally recursive, kernel-computable function; the fuel
  bound derived from the weight measure below is proved adequate, making
  the wrapper functions fuel-independent.
-/

namespace DataPipeTyping

/-- The type-expression algebra: Any, the null type (type(None)), a concrete
class, a type variable (TypeVar) with optional bound and a constraint list,
a union, and a generic alias with an optional argument list. -/
inductive TypeExpr where
  | anyT : TypeExpr
  | noneType : TypeExpr
  | concrete (ref : Nat) : TypeExpr
  | tvar (id : Nat) (bnd : Option TypeExpr) (constraints : List TypeExpr) : TypeExpr
  | unionT (args : List TypeExpr) : TypeExpr
  | generic (origin : Nat) (args : Option (List TypeExpr)) : TypeExpr

mutual

/-- Structural (Python ==) equality on type expressions, as a Boolean. -/
def teBEq : TypeExpr → TypeExpr → Bool
  | .anyT, .anyT => true
  | .noneType, .noneType => true
  | .concrete r, .concrete s => r == s
  | .tvar i none c1, .tvar j none c2 => i == j && teBEqL c1 c2
  | .tvar i (some b1) c1, .tvar j (some b2) c2 => i == j && teBEq b1 b2 && teBEqL c1 c2
  | .unionT a1, .unionT a2 => teBEqL a1 a2
  | .generic o1 none, .generic o2 none => o1 == o2
  | .generic o1 (some a1), .generic o2 (some a2) => o1 == o2 && teBEqL a1 a2
  | _, _ => false

def teBEqL : List TypeExpr → List TypeExpr → Bool
  | [], [] => true
  | a :: l1, b :: l2 => teBEq a b && teBEqL l1 l2
  | _, _ => false

end

mutual

theorem teBEq_refl : (a : TypeExpr) → teBEq a a = true
  | .anyT => rfl
  | .noneType => rfl
  | .concrete r => by simp [teBEq]
  | .tvar i none c => by simp [teBEq, teBEqL_refl c]
  | .tvar i (some b) c => by simp [teBEq, teBEq_refl b, teBEqL_refl c]
  | .unionT a => teBEqL_refl a
  | .generic o none => by simp [teBEq]
  | .generic o (some a) => by simp [teBEq, teBEqL_refl a]

theorem teBEqL_refl : (l : List TypeExpr) → teBEqL l l = true
  | [] => rfl
  | a :: l => by simp [teBEqL, teBEq_refl a, teBEqL_refl l]

end

mutual

theorem teBEq_sound : (a b : TypeExpr) → teBEq a b = true → a = b
  | .anyT, .anyT, _ => rfl
  | .noneType, .noneType, _ => rfl
  | .concrete r, .concrete s, h => by
      simp only [teBEq, beq_iff_eq] at h; rw [h]
  | .tvar i none c1, .tvar j none c2, h => by
      simp only [teBEq, Bool.and_eq_true, beq_iff_eq] at h
      rw [h.1, teBEqL_sound c1 c2 h.2]
  | .tvar i (some b1) c1, .tvar j (some b2) c2, h => by
      simp only [teBEq, Bool.and_eq_true, beq_iff_eq] at h
      rw [h.1.1, teBEq_sound b1 b2 h.1.2, teBEqL_sound c1 c2 h.2]
  | .unionT a1, .unionT a2, h => by
      rw [teBEqL_sound a1 a2 h]
  | .generic o1 none, .generic o2 none, h => by
      simp only [teBEq, beq_iff_eq] at h; rw [h]
  | .generic o1 (some a1), .generic o2 (some a2), h => by
      simp only [teBEq, Bool.and_eq_true, beq_iff_eq] at h
      rw [h.1, teBEqL_sound a1 a2 h.2]
  | .anyT, .noneType, h => by simp [teBEq] at h
  | .anyT, .concrete _, h => by simp [teBEq] at h
  | .anyT, .tvar _ _ _, h => by simp [teBEq] at h
  | .anyT, .unionT _, h => by simp [teBEq] at h
  | .anyT, .generic _ _, h => by simp [teBEq] at h
  | .noneType, .anyT, h => by simp [teBEq] at h
  | .noneType, .concrete _, h => by simp [teBEq] at h
  | .noneType, .tvar _ _ _, h => by simp [teBEq] at h
  | .noneType, .unionT _, h => by simp [teBEq] at h
  | .noneType, .generic _ _, h => by simp [teBEq] at h
  | .concrete _, .anyT, h => by simp [teBEq] at h
  | .concrete _, .noneType, h => by simp [teBEq] at h
  | .concrete _, .tvar _ _ _, h => by simp [teBEq] at h
  | .concrete _, .unionT _, h => by simp [teBEq] at h
  | .concrete _, .generic _ _, h => by simp [teBEq] at h
  | .tvar _ _ _, .anyT, h => by simp [teBEq] at h
  | .tvar _ _ _, .noneType, h => by simp [teBEq] at h
  | .tvar _ _ _, .concrete _, h => by simp [teBEq] at h
  | .tvar _ none _, .tvar _ (some _) _, h => by simp [teBEq] at h
  | .tvar _ (some _) _, .tvar _ none _, h => by simp [teBEq] at h
  | .tvar _ _ _, .unionT _, h => by simp [teBEq] at h
  | .tvar _ _ _, .generic _ _, h => by simp [teBEq] at h
  | .unionT _, .anyT, h => by simp [teBEq] at h
  | .unionT _, .noneType, h => by simp [teBEq] at h
  | .unionT _, .concrete _, h => by simp [teBEq] at h
  | .unionT _, .tvar _ _ _, h => by simp [teBEq] at h
  | .unionT _, .generic _ _, h => by simp [teBEq] at h
  | .generic _ _, .anyT, h => by simp [teBEq] at h
  | .generic _ _, .noneType, h => by simp [teBEq] at h
  | .generic _ _, .concrete _, h => by simp [teBEq] at h
  | .generic _ _, .tvar _ _ _, h => by simp [teBEq] at h
  | .generic _ _, .unionT _, h => by simp [teBEq] at h
  | .generic _ none, .generic _ (some _), h => by simp [teBEq] at h
  | .generic _ (some _), .generic _ none, h => by simp [teBEq] at h

theorem teBEqL_sound : (l1 l2 : List TypeExpr) → teBEqL l1 l2 = true → l1 = l2
  | [], [], _ => rfl
  | a :: l1, b :: l2, h => by
      simp only [teBEqL, Bool.and_eq_true] at h
      rw [teBEq_sound a b h.1, teBEqL_sound l1 l2 h.2]
  | [], _ :: _, h => by simp [teBEqL] at h
  | _ :: _, [], h => by simp [teBEqL] at h

end

theorem teBEq_iff (a b : TypeExpr) : teBEq a b = true ↔ a = b :=
  ⟨teBEq_sound a b, fun h => h ▸ teBEq_refl a⟩

instance : DecidableEq TypeExpr :=
  fun a b => decidable_of_iff (teBEq a b = true) (teBEq_iff a b)

mutual

/-- Weight of a type expression, the termination measure for the checker. -/
def w : TypeExpr → Nat
  | .anyT => 1
  | .noneType => 1
  | .concrete _ => 2
  | .generic _ none => 2
  | .generic _ (some args) => 3 + wsum args
  | .tvar _ none cs => 3 + wsum cs
  | .tvar _ (some b) cs => 3 + w b + wsum cs
  | .unionT args => 3 + wsum args

def wsum : List TypeExpr → Nat
  | [] => 0
  | t :: ts => w t + wsum ts

end

theorem w_pos (t : TypeExpr) : 0 < w t := by
  cases t with
  | tvar _ b cs => cases b <;> simp [w]
  | generic _ a => cases a <;> simp [w]
  | _ => simp [w]

/-- The TYPE2ABC normalization table: bool, int, float, complex map to the
abstract categories Boolean, Integer, numbers.Real, numbers.Complex, and the
builtin containers dict, list, set, tuple map to their unparameterized
generic alias forms Dict, List, Set, Tuple.  Any other expression is left
unchanged (dict.get default). -/
def type2abc : TypeExpr → TypeExpr
  | .concrete 0 => .concrete 100
  | .concrete 1 => .concrete 101
  | .concrete 2 => .concrete 102
  | .concrete 3 => .concrete 103
  | .concrete 4 => .generic 4 none
  | .concrete 5 => .generic 5 none
  | .concrete 6 => .generic 6 none
  | .concrete 7 => .generic 7 none
  | t => t

/-- Expansion of one side at the top level of issubtype (source lines 53-63
and 71-81): a TypeVar contributes its bound if present and otherwise its
constraint list (possibly empty), a Union contributes its argument list, and
anything else stands for itself; every member is then normalized through
TYPE2ABC. -/
def sideList (t : TypeExpr) : List TypeExpr :=
  (match t with
   | .tvar _ (some b) _ => [b]
   | .tvar _ none cs => cs
   | .unionT args => args
   | _ => [t]).map type2abc

/-- Expansion used inside _issubtype_with_constraints (source lines 107-115
and 131-138): as at the top level, except that an unconstrained TypeVar
(no bound, empty constraint list, "both empty like T_co") is NOT expanded
and instead falls through to the origin/args comparison. -/
def innerExpand : TypeExpr → Option (List TypeExpr)
  | .tvar _ (some b) _ => some [b]
  | .tvar _ none cs => if cs = [] then none else some cs
  | .unionT args => some args
  | _ => none

/-- Decomposition of a variant (source lines 121-127): a parameterized
generic decomposes into its origin, anything else stands for itself.  The
origin of a parameterized generic is represented by the corresponding
unparameterized alias. -/
def vOriginOf : TypeExpr → TypeExpr
  | .generic o (some _) => .generic o none
  | t => t

/-- Argument list of a variant (source lines 121-127): present exactly for a
parameterized generic. -/
def vArgsOf : TypeExpr → Option (List TypeExpr)
  | .generic _ (some args) => some args
  | _ => none

/-- Fuel bound for issubtypeF. -/
def mIss (l r : TypeExpr) : Nat := w l + w r + 3

/-- Fuel bound for iswcAllF. -/
def mAll (vs cs : List TypeExpr) : Nat := wsum vs + wsum cs + 2

/-- Fuel bound for iswcF. -/
def mC (v : TypeExpr) (cs : List TypeExpr) : Nat := w v + wsum cs + 1

/-- Fuel bound for iswcLoopF. -/
def mLoop (v : TypeExpr) (cs : List TypeExpr) : Nat := w v + wsum cs

/-- Fuel bound for argsIssubF. -/
def mArgs (xs ys : List TypeExpr) : Nat := wsum xs + wsum ys + 4

mutual

/-- Fueled translation of issubtype(left, right) (source lines 43-86):
normalize both sides, succeed on right == Any or structural equality, fail
on right == type(None), expand the right side into constraints (empty
constraint set or an Any constraint succeeds), fail when the left side is
Any, expand the left side into variants (empty variant set fails), and
otherwise require every variant to match the constraints. -/
def issubtypeF : Nat → TypeExpr → TypeExpr → Bool
  | 0, _, _ => false
  | f + 1, left, right =>
    if type2abc right = .anyT ∨ type2abc left = type2abc right then true
    else if type2abc right = .noneType then false
    else if sideList (type2abc right) = [] ∨ .anyT ∈ sideList (type2abc right) then true
    else if type2abc left = .anyT then false
    else if sideList (type2abc left) = [] then false
    else iswcAllF f (sideList (type2abc left)) (sideList (type2abc right))

/-- all(_issubtype_with_constraints(variant, constraints) for variant in
variants) (source line 86), and likewise for the flattened inner variants
of a TypeVar or Union variant (source line 119). -/
def iswcAllF : Nat → List TypeExpr → List TypeExpr → Bool
  | 0, _, _ => false
  | _ + 1, [], _ => true
  | f + 1, v :: vs, cs => iswcF f v cs && iswcAllF f vs cs

/-- Fueled translation of _issubtype_with_constraints(variant, constraints)
(source lines 90-161): membership in the constraint list succeeds; a
TypeVar or Union variant is flattened and all of its normalized inner
types must match; otherwise the constraint loop runs. -/
def iswcF : Nat → TypeExpr → List TypeExpr → Bool
  | 0, _, _ => false
  | f + 1, variant, constraints =>
    if variant ∈ constraints then true
    else
      match innerExpand variant with
      | some vs => iswcAllF f (vs.map type2abc) constraints
      | none => iswcLoopF f variant constraints

/-- The constraint loop of _issubtype_with_constraints (source lines
129-161).  A TypeVar or Union constraint is flattened (normalized) and the
variant must match some flattened sub-constraint; a generic constraint with
the same origin as the variant succeeds when the constraint carries no
arguments, or the variant carries none, or the argument lists have equal
length and are pairwise subtypes; a non-generic constraint equal to the
variant origin returns immediately with the test that the variant itself
carries no arguments. -/
def iswcLoopF : Nat → TypeExpr → List TypeExpr → Bool
  | 0, _, _ => false
  | _ + 1, _, [] => false
  | f + 1, v, c :: rest =>
    match innerExpand c with
    | some cs2 =>
      if iswcF f v (cs2.map type2abc) then true else iswcLoopF f v rest
    | none =>
      match c with
      | .generic co cargsOpt =>
        if vOriginOf v = .generic co none then
          match cargsOpt with
          | none => true
          | some cargs =>
            match vArgsOf v with
            | none => true
            | some vargs =>
              if cargs = [] then true
              else if vargs.length = cargs.length ∧ argsIssubF f vargs cargs = true then true
              else iswcLoopF f v rest
        else iswcLoopF f v rest
      | _ =>
        if vOriginOf v = c then
          match vArgsOf v with
          | none => true
          | some vargs => decide (vargs = [])
        else iswcLoopF f v rest

/-- all(issubtype(v_arg, c_arg) for v_arg, c_arg in zip(v_args, c_args))
(source line 155). -/
def argsIssubF : Nat → List TypeExpr → List TypeExpr → Bool
  | 0, _, _ => false
  | _ + 1, [], _ => true
  | _ + 1, _ :: _, [] => true
  | f + 1, x :: xs, y :: ys => issubtypeF f x y && argsIssubF f xs ys

end

/-- The subtype predicate issubtype(left, right) of the source, with the
adequate fuel. -/
def issubtype (l r : TypeExpr) : Bool := issubtypeF (mIss l r) l r

/-- Canonical-fuel version of iswcAllF. -/
def iswcAll (vs cs : List TypeExpr) : Bool := iswcAllF (mAll vs cs) vs cs

/-- The helper _issubtype_with_constraints of the source, with the adequate
fuel. -/
def iswc (v : TypeExpr) (cs : List TypeExpr) : Bool := iswcF (mC v cs) v cs

/-- Canonical-fuel version of iswcLoopF. -/
def iswcLoop (v : TypeExpr) (cs : List TypeExpr) : Bool := iswcLoopF (mLoop v cs) v cs

/-- Canonical-fuel version of argsIssubF. -/
def argsIssub (xs ys : List TypeExpr) : Bool := argsIssubF (mArgs xs ys) xs ys

theorem wsum_nil : wsum [] = 0 := rfl

theorem wsum_cons (t : TypeExpr) (l : List TypeExpr) : wsum (t :: l) = w t + wsum l := rfl

theorem w_type2abc_le (t : TypeExpr) : w (type2abc t) ≤ w t := by
  match t with
  | .concrete r => unfold type2abc; split <;> simp [w]
  | .anyT | .noneType | .tvar _ _ _ | .unionT _ | .generic _ _ => simp [type2abc]

theorem wsum_map_type2abc_le (l : List TypeExpr) : wsum (l.map type2abc) ≤ wsum l := by
  induction l with
  | nil => simp [wsum]
  | cons a l ih =>
      simp only [List.map_cons, wsum_cons]
      exact Nat.add_le_add (w_type2abc_le a) ih

theorem wsum_sideList_le (t : TypeExpr) : wsum (sideList t) ≤ w t := by
  cases t with
  | tvar i b cs =>
      cases b with
      | some bd =>
          have h1 := w_type2abc_le bd
          simp only [sideList, List.map_cons, List.map_nil, wsum_cons, wsum_nil, w]
          omega
      | none =>
          have h1 := wsum_map_type2abc_le cs
          simp only [sideList, w]
          omega
  | unionT args =>
      have h1 := wsum_map_type2abc_le args
      simp only [sideList, w]
      omega
  | anyT => simp [sideList, type2abc, wsum_cons, wsum_nil, w]
  | noneType => simp [sideList, type2abc, wsum_cons, wsum_nil, w]
  | concrete r =>
      have h1 := w_type2abc_le (.concrete r)
      simp only [sideList, List.map_cons, List.map_nil, wsum_cons, wsum_nil]
      omega
  | generic o a =>
      have h1 := w_type2abc_le (.generic o a)
      simp only [sideList, List.map_cons, List.map_nil, wsum_cons, wsum_nil]
      omega

theorem innerExpand_wsum {t : TypeExpr} {vs : List TypeExpr}
    (h : innerExpand t = some vs) : wsum (vs.map type2abc) + 3 ≤ w t := by
  cases t with
  | tvar i b cs =>
      cases b with
      | some bd =>
          simp only [innerExpand, Option.some.injEq] at h
          subst h
          have h1 := w_type2abc_le bd
          simp only [List.map_cons, List.map_nil, wsum_cons, wsum_nil, w]
          omega
      | none =>
          simp only [innerExpand] at h
          split at h
          · exact absurd h (by simp)
          · simp only [Option.some.injEq] at h
            subst h
            have h1 := wsum_map_type2abc_le cs
            simp only [w]
            omega
  | unionT args =>
      simp only [innerExpand, Option.some.injEq] at h
      subst h
      have h1 := wsum_map_type2abc_le args
      simp only [w]
      omega
  | anyT => simp [innerExpand] at h
  | noneType => simp [innerExpand] at h
  | concrete r => simp [innerExpand] at h
  | generic o a => simp [innerExpand] at h

theorem vArgsOf_w {v : TypeExpr} {vargs : List TypeExpr}
    (h : vArgsOf v = some vargs) : w v = wsum vargs + 3 := by
  cases v with
  | generic o a =>
      cases a with
      | some args =>
          simp only [vArgsOf, Option.some.injEq] at h
          subst h
          simp only [w]
          omega
      | none => simp [vArgsOf] at h
  | anyT => simp [vArgsOf] at h
  | noneType => simp [vArgsOf] at h
  | concrete r => simp [vArgsOf] at h
  | tvar _ _ _ => simp [vArgsOf] at h
  | unionT _ => simp [vArgsOf] at h

/-- Every fuel at least as large as the canonical bound computes the
canonical value: the fueled checker stabilizes at the weight-derived bound,
so the wrapper functions are fuel-independent. -/
theorem adequate (n : Nat) :
    (∀ l r, mIss l r ≤ n → issubtypeF n l r = issubtype l r) ∧
    (∀ vs cs, mAll vs cs ≤ n → iswcAllF n vs cs = iswcAll vs cs) ∧
    (∀ v cs, mC v cs ≤ n → iswcF n v cs = iswc v cs) ∧
    (∀ v cs, mLoop v cs ≤ n → iswcLoopF n v cs = iswcLoop v cs) ∧
    (∀ xs ys, mArgs xs ys ≤ n → argsIssubF n xs ys = argsIssub xs ys) := by
  induction n using Nat.strong_induction_on with
  | _ n ih =>
  refine ⟨?_, ?_, ?_, ?_, ?_⟩
  · -- issubtypeF
    intro l r h
    have hwl := w_pos l; have hwr := w_pos r
    have hm : mIss l r = w l + w r + 2 + 1 := by simp [mIss] <;> omega
    obtain ⟨n', rfl⟩ : ∃ n', n = n' + 1 := ⟨n - 1, by simp [mIss] at h <;> omega⟩
    rw [issubtype, hm]
    simp only [issubtypeF]
    have hb : mAll (sideList (type2abc l)) (sideList (type2abc r)) ≤ w l + w r + 2 := by
      have h1 := wsum_sideList_le (type2abc l)
      have h2 := wsum_sideList_le (type2abc r)
      have h3 := w_type2abc_le l
      have h4 := w_type2abc_le r
      simp only [mAll] <;> omega
    have hn' : w l + w r + 2 ≤ n' := by simp [mIss] at h <;> omega
    have e1 : iswcAllF n' (sideList (type2abc l)) (sideList (type2abc r)) =
        iswcAll (sideList (type2abc l)) (sideList (type2abc r)) :=
      (ih n' (Nat.lt_succ_self n')).2.1 _ _ (le_trans hb hn')
    have e2 : iswcAllF (w l + w r + 2) (sideList (type2abc l)) (sideList (type2abc r)) =
        iswcAll (sideList (type2abc l)) (sideList (type2abc r)) :=
      (ih (w l + w r + 2) (by omega)).2.1 _ _ hb
    rw [e1, e2]
  · -- iswcAllF
    intro vs cs h
    obtain ⟨n', rfl⟩ : ∃ n', n = n' + 1 := ⟨n - 1, by simp [mAll] at h <;> omega⟩
    cases vs with
    | nil =>
        rw [iswcAll]
        have hm : mAll ([] : List TypeExpr) cs = wsum cs + 1 + 1 := by
          simp [mAll, wsum_nil] <;> omega
        rw [hm]
        simp only [iswcAllF]
    | cons v vs =>
        have hv := w_pos v
        have hm : mAll (v :: vs) cs = w v + wsum vs + wsum cs + 1 + 1 := by
          simp [mAll, wsum_cons] <;> omega
        have hle : w v + wsum vs + wsum cs + 2 ≤ n' + 1 := by
          simp [mAll, wsum_cons] at h <;> omega
        rw [iswcAll, hm]
        simp only [iswcAllF]
        have e1 : iswcF n' v cs = iswc v cs :=
          (ih n' (Nat.lt_succ_self n')).2.2.1 _ _ (by simp [mC] <;> omega)
        have e2 : iswcAllF n' vs cs = iswcAll vs cs :=
          (ih n' (Nat.lt_succ_self n')).2.1 _ _ (by simp [mAll] <;> omega)
        have e3 : iswcF (w v + wsum vs + wsum cs + 1) v cs = iswc v cs :=
          (ih (w v + wsum vs + wsum cs + 1) (by omega)).2.2.1 _ _ (by simp [mC] <;> omega)
        have e4 : iswcAllF (w v + wsum vs + wsum cs + 1) vs cs = iswcAll vs cs :=
          (ih (w v + wsum vs + wsum cs + 1) (by omega)).2.1 _ _ (by simp [mAll] <;> omega)
        rw [e1, e2, e3, e4]
  · -- iswcF
    intro v cs h
    have hv := w_pos v
    obtain ⟨n', rfl⟩ : ∃ n', n = n' + 1 := ⟨n - 1, by simp [mC] at h <;> omega⟩
    have hle : w v + wsum cs + 1 ≤ n' + 1 := by simp [mC] at h <;> omega
    rw [iswc]
    have hm : mC v cs = w v + wsum cs + 1 := by simp [mC]
    rw [hm]
    simp only [iswcF]
    cases hie : innerExpand v with
    | none =>
        simp only [hie]
        have e1 : iswcLoopF n' v cs = iswcLoop v cs :=
          (ih n' (Nat.lt_succ_self n')).2.2.2.1 _ _ (by simp [mLoop] <;> omega)
        have e2 : iswcLoopF (w v + wsum cs) v cs = iswcLoop v cs :=
          (ih (w v + wsum cs) (by omega)).2.2.2.1 _ _ (by simp [mLoop])
        rw [e1, e2]
    | some vs2 =>
        simp only [hie]
        have hw2 := innerExpand_wsum hie
        have e1 : iswcAllF n' (vs2.map type2abc) cs = iswcAll (vs2.map type2abc) cs :=
          (ih n' (Nat.lt_succ_self n')).2.1 _ _ (by simp [mAll] <;> omega)
        have e2 : iswcAllF (w v + wsum cs) (vs2.map type2abc) cs =
            iswcAll (vs2.map type2abc) cs :=
          (ih (w v + wsum cs) (by omega)).2.1 _ _ (by simp [mAll] <;> omega)
        rw [e1, e2]
  · -- iswcLoopF
    intro v cs h
    have hv := w_pos v
    obtain ⟨n', rfl⟩ : ∃ n', n = n' + 1 := ⟨n - 1, by simp [mLoop] at h <;> omega⟩
    cases cs with
    | nil =>
        rw [iswcLoop]
        have hm : mLoop v [] = (w v - 1) + 1 := by simp [mLoop, wsum_nil] <;> omega
        rw [hm]
        simp only [iswcLoopF]
    | cons c rest =>
        have hc := w_pos c
        have hm : mLoop v (c :: rest) = w v + w c + wsum rest - 1 + 1 := by
          simp [mLoop, wsum_cons] <;> omega
        have hle : w v + w c + wsum rest ≤ n' + 1 := by
          simp [mLoop, wsum_cons] at h <;> omega
        rw [iswcLoop, hm]
        simp only [iswcLoopF]
        cases hie : innerExpand c with
        | some cs2 =>
            simp only [hie]
            have hw2 := innerExpand_wsum hie
            have e1 : iswcF n' v (cs2.map type2abc) = iswc v (cs2.map type2abc) :=
              (ih n' (Nat.lt_succ_self n')).2.2.1 _ _ (by simp [mC] <;> omega)
            have e2 : iswcF (w v + w c + wsum rest - 1) v (cs2.map type2abc) =
                iswc v (cs2.map type2abc) :=
              (ih (w v + w c + wsum rest - 1) (by omega)).2.2.1 _ _ (by simp [mC] <;> omega)
            have e3 : iswcLoopF n' v rest = iswcLoop v rest :=
              (ih n' (Nat.lt_succ_self n')).2.2.2.1 _ _ (by simp [mLoop] <;> omega)
            have e4 : iswcLoopF (w v + w c + wsum rest - 1) v rest = iswcLoop v rest :=
              (ih (w v + w c + wsum rest - 1) (by omega)).2.2.2.1 _ _ (by simp [mLoop] <;> omega)
            rw [e1, e2, e3, e4]
        | none =>
            simp only [hie]
            have e3 : iswcLoopF n' v rest = iswcLoop v rest :=
              (ih n' (Nat.lt_succ_self n')).2.2.2.1 _ _ (by simp [mLoop] <;> omega)
            have e4 : iswcLoopF (w v + w c + wsum rest - 1) v rest = iswcLoop v rest :=
              (ih (w v + w c + wsum rest - 1) (by omega)).2.2.2.1 _ _ (by simp [mLoop] <;> omega)
            cases c with
            | generic co cargsOpt =>
                cases cargsOpt with
                | none => simp only [e3, e4]
                | some cargs =>
                    cases hva : vArgsOf v with
                    | none => simp only [hva, e3, e4]
                    | some vargs =>
                        have hwv := vArgsOf_w hva
                        have hwc : w (TypeExpr.generic co (some cargs)) = 3 + wsum cargs := by
                          simp [w]
                        have e5 : argsIssubF n' vargs cargs = argsIssub vargs cargs :=
                          (ih n' (Nat.lt_succ_self n')).2.2.2.2 _ _ (by simp [mArgs] <;> omega)
                        have e6 : argsIssubF (w v + w (TypeExpr.generic co (some cargs)) +
                            wsum rest - 1) vargs cargs = argsIssub vargs cargs :=
                          (ih _ (by omega)).2.2.2.2 _ _ (by simp [mArgs] <;> omega)
                        simp only [hva, e3, e4, e5, e6]
            | anyT => simp only [e3, e4]
            | noneType => simp only [e3, e4]
            | concrete r => simp only [e3, e4]
            | tvar _ _ _ => simp only [e3, e4]
            | unionT _ => simp only [e3, e4]
  · -- argsIssubF
    intro xs ys h
    obtain ⟨n', rfl⟩ : ∃ n', n = n' + 1 := ⟨n - 1, by simp [mArgs] at h <;> omega⟩
    cases xs with
    | nil =>
        rw [argsIssub]
        have hm : mArgs ([] : List TypeExpr) ys = wsum ys + 3 + 1 := by
          simp [mArgs, wsum_nil] <;> omega
        rw [hm]
        simp only [argsIssubF]
    | cons x xs =>
        cases ys with
        | nil =>
            rw [argsIssub]
            have hm : mArgs (x :: xs) ([] : List TypeExpr) = wsum (x :: xs) + 3 + 1 := by
              simp [mArgs, wsum_nil] <;> omega
            rw [hm]
            simp only [argsIssubF]
        | cons y ys =>
            have hx := w_pos x; have hy := w_pos y
            have hm : mArgs (x :: xs) (y :: ys) =
                w x + wsum xs + w y + wsum ys + 3 + 1 := by
              simp [mArgs, wsum_cons] <;> omega
            have hle : w x + wsum xs + w y + wsum ys + 4 ≤ n' + 1 := by
              simp [mArgs, wsum_cons] at h <;> omega
            rw [argsIssub, hm]
            simp only [argsIssubF]
            have e1 : issubtypeF n' x y = issubtype x y :=
              (ih n' (Nat.lt_succ_self n')).1 _ _ (by simp [mIss] <;> omega)
            have e2 : argsIssubF n' xs ys = argsIssub xs ys :=
              (ih n' (Nat.lt_succ_self n')).2.2.2.2 _ _ (by simp [mArgs] <;> omega)
            have e3 : issubtypeF (w x + wsum xs + w y + wsum ys + 3) x y = issubtype x y :=
              (ih _ (by omega)).1 _ _ (by simp [mIss] <;> omega)
            have e4 : argsIssubF (w x + wsum xs + w y + wsum ys + 3) xs ys =
                argsIssub xs ys :=
              (ih _ (by omega)).2.2.2.2 _ _ (by simp [mArgs] <;> omega)
            rw [e1, e2, e3, e4]

theorem issubtype_eq (l r : TypeExpr) : issubtype l r =
    (if type2abc r = .anyT ∨ type2abc l = type2abc r then true
     else if type2abc r = .noneType then false
     else if sideList (type2abc r) = [] ∨ .anyT ∈ sideList (type2abc r) then true
     else if type2abc l = .anyT then false
     else if sideList (type2abc l) = [] then false
     else iswcAll (sideList (type2abc l)) (sideList (type2abc r))) := by
  rw [issubtype]
  have hm : mIss l r = w l + w r + 2 + 1 := by simp [mIss] <;> omega
  rw [hm]
  simp only [issubtypeF]
  have hb : mAll (sideList (type2abc l)) (sideList (type2abc r)) ≤ w l + w r + 2 := by
    have h1 := wsum_sideList_le (type2abc l)
    have h2 := wsum_sideList_le (type2abc r)
    have h3 := w_type2abc_le l
    have h4 := w_type2abc_le r
    simp only [mAll] <;> omega
  rw [(adequate _).2.1 _ _ hb]

theorem iswcAll_nil (cs : List TypeExpr) : iswcAll [] cs = true := by
  rw [iswcAll]
  have hm : mAll ([] : List TypeExpr) cs = wsum cs + 1 + 1 := by
    simp [mAll, wsum_nil] <;> omega
  rw [hm]
  simp only [iswcAllF]

theorem iswcAll_cons (v : TypeExpr) (vs cs : List TypeExpr) :
    iswcAll (v :: vs) cs = (iswc v cs && iswcAll vs cs) := by
  rw [iswcAll]
  have hm : mAll (v :: vs) cs = w v + wsum vs + wsum cs + 1 + 1 := by
    simp [mAll, wsum_cons] <;> omega
  rw [hm]
  simp only [iswcAllF]
  rw [(adequate _).2.2.1 _ _ (by simp [mC] <;> omega),
      (adequate _).2.1 _ _ (by have := w_pos v; simp [mAll] <;> omega)]

theorem iswc_eq (v : TypeExpr) (cs : List TypeExpr) : iswc v cs =
    (if v ∈ cs then true
     else
       match innerExpand v with
       | some vs => iswcAll (vs.map type2abc) cs
       | none => iswcLoop v cs) := by
  rw [iswc]
  have hm : mC v cs = w v + wsum cs + 1 := by simp [mC]
  rw [hm]
  simp only [iswcF]
  cases hie : innerExpand v with
  | none =>
      simp only [hie]
      rw [(adequate _).2.2.2.1 _ _ (by simp [mLoop])]
  | some vs2 =>
      simp only [hie]
      have hw2 := innerExpand_wsum hie
      rw [(adequate _).2.1 _ _ (by simp [mAll] <;> omega)]

theorem iswcLoop_nil (v : TypeExpr) : iswcLoop v [] = false := by
  rw [iswcLoop]
  have hm : mLoop v [] = (w v - 1) + 1 := by
    have := w_pos v; simp [mLoop, wsum_nil] <;> omega
  rw [hm]
  simp only [iswcLoopF]

theorem iswcLoop_cons (v c : TypeExpr) (rest : List TypeExpr) :
    iswcLoop v (c :: rest) =
    (match innerExpand c with
     | some cs2 =>
       if iswc v (cs2.map type2abc) then true else iswcLoop v rest
     | none =>
       match c with
       | .generic co cargsOpt =>
         if vOriginOf v = .generic co none then
           match cargsOpt with
           | none => true
           | some cargs =>
             match vArgsOf v with
             | none => true
             | some vargs =>
               if cargs = [] then true
               else if vargs.length = cargs.length ∧ argsIssub vargs cargs = true then true
               else iswcLoop v rest
         else iswcLoop v rest
       | _ =>
         if vOriginOf v = c then
           match vArgsOf v with
           | none => true
           | some vargs => decide (vargs = [])
         else iswcLoop v rest) := by
  have hv := w_pos v; have hc := w_pos c
  rw [iswcLoop]
  have hm : mLoop v (c :: rest) = (w v + w c + wsum rest - 1) + 1 := by
    simp [mLoop, wsum_cons] <;> omega
  rw [hm]
  simp only [iswcLoopF]
  have eloop : iswcLoopF (w v + w c + wsum rest - 1) v rest = iswcLoop v rest :=
    (adequate _).2.2.2.1 _ _ (by simp [mLoop] <;> omega)
  cases hie : innerExpand c with
  | some cs2 =>
      simp only [hie]
      have hw2 := innerExpand_wsum hie
      rw [(adequate _).2.2.1 _ _ (by simp [mC] <;> omega), eloop]
  | none =>
      simp only [hie]
      cases c with
      | generic co cargsOpt =>
          cases cargsOpt with
          | none => simp only [eloop]
          | some cargs =>
              cases hva : vArgsOf v with
              | none => simp only [hva, eloop]
              | some vargs =>
                  have hwv := vArgsOf_w hva
                  have hwc : w (TypeExpr.generic co (some cargs)) = 3 + wsum cargs := by
                    simp [w]
                  have eargs : argsIssubF (w v + w (TypeExpr.generic co (some cargs)) +
                      wsum rest - 1) vargs cargs = argsIssub vargs cargs :=
                    (adequate _).2.2.2.2 _ _ (by simp [mArgs] <;> omega)
                  simp only [hva, eloop, eargs]
      | anyT => simp only [eloop]
      | noneType => simp only [eloop]
      | concrete r => simp only [eloop]
      | tvar _ _ _ => simp only [eloop]
      | unionT _ => simp only [eloop]

theorem argsIssub_nil_left (ys : List TypeExpr) : argsIssub [] ys = true := by
  rw [argsIssub]
  have hm : mArgs ([] : List TypeExpr) ys = wsum ys + 3 + 1 := by
    simp [mArgs, wsum_nil] <;> omega
  rw [hm]
  simp only [argsIssubF]

theorem argsIssub_nil_right (x : TypeExpr) (xs : List TypeExpr) :
    argsIssub (x :: xs) [] = true := by
  rw [argsIssub]
  have hm : mArgs (x :: xs) ([] : List TypeExpr) = wsum (x :: xs) + 3 + 1 := by
    simp [mArgs, wsum_nil] <;> omega
  rw [hm]
  simp only [argsIssubF]

theorem argsIssub_cons (x y : TypeExpr) (xs ys : List TypeExpr) :
    argsIssub (x :: xs) (y :: ys) = (issubtype x y && argsIssub xs ys) := by
  rw [argsIssub]
  have hm : mArgs (x :: xs) (y :: ys) = w x + wsum xs + w y + wsum ys + 3 + 1 := by
    simp [mArgs, wsum_cons] <;> omega
  rw [hm]
  simp only [argsIssubF]
  rw [(adequate _).1 _ _ (by simp [mIss] <;> omega),
      (adequate _).2.2.2.2 _ _ (by have := w_pos x; have := w_pos y; simp [mArgs] <;> omega)]

theorem issubtype_refl (t : TypeExpr) : issubtype t t = true := by
  rw [issubtype_eq]; simp

theorem type2abc_anyT : type2abc .anyT = .anyT := rfl

theorem type2abc_noneType : type2abc .noneType = .noneType := rfl

theorem type2abc_tvar (i : Nat) (b : Option TypeExpr) (cs : List TypeExpr) :
    type2abc (.tvar i b cs) = .tvar i b cs := rfl

theorem type2abc_unionT (args : List TypeExpr) : type2abc (.unionT args) = .unionT args := rfl

theorem type2abc_generic (o : Nat) (a : Option (List TypeExpr)) :
    type2abc (.generic o a) = .generic o a := rfl

theorem iswc_eq_none {v : TypeExpr} (h : innerExpand v = none) (cs : List TypeExpr) :
    iswc v cs = (if v ∈ cs then true else iswcLoop v cs) := by
  rw [iswc_eq, h]

theorem iswc_eq_some {v : TypeExpr} {vs : List TypeExpr} (h : innerExpand v = some vs)
    (cs : List TypeExpr) :
    iswc v cs = (if v ∈ cs then true else iswcAll (vs.map type2abc) cs) := by
  rw [iswc_eq, h]

theorem iswcLoop_cons_expand {c : TypeExpr} {cs2 : List TypeExpr}
    (h : innerExpand c = some cs2) (v : TypeExpr) (rest : List TypeExpr) :
    iswcLoop v (c :: rest) =
      (if iswc v (cs2.map type2abc) then true else iswcLoop v rest) := by
  rw [iswcLoop_cons, h]

theorem iswcLoop_cons_genericBare (v : TypeExpr) (co : Nat) (rest : List TypeExpr) :
    iswcLoop v (.generic co none :: rest) =
      (if vOriginOf v = .generic co none then true else iswcLoop v rest) := by
  rw [iswcLoop_cons]
  rfl

theorem iswcLoop_cons_genericArgs_some {v : TypeExpr} {vargs : List TypeExpr}
    (hv : vArgsOf v = some vargs) (co : Nat) (cargs rest : List TypeExpr) :
    iswcLoop v (.generic co (some cargs) :: rest) =
      (if vOriginOf v = .generic co none then
         if cargs = [] then true
         else if vargs.length = cargs.length ∧ argsIssub vargs cargs = true then true
         else iswcLoop v rest
       else iswcLoop v rest) := by
  rw [iswcLoop_cons]
  simp only [innerExpand, hv]

theorem iswcLoop_cons_genericArgs_none {v : TypeExpr} (hv : vArgsOf v = none) (co : Nat)
    (cargs rest : List TypeExpr) :
    iswcLoop v (.generic co (some cargs) :: rest) =
      (if vOriginOf v = .generic co none then true else iswcLoop v rest) := by
  rw [iswcLoop_cons]
  simp only [innerExpand, hv]

mutual

/-- _fixed_type(param) (source lines 171-180): a TypeVar or Any is not
fixed; an expression carrying an argument list (union or generic) is fixed
exactly when the list is nonempty and every argument is recursively fixed;
anything else is fixed.  An unparameterized generic alias is not fixed (its
Python argument tuple is either absent-and-empty or the alias's own type
parameters, which are TypeVars). -/
def fixedType : TypeExpr → Bool
  | .tvar _ _ _ => false
  | .anyT => false
  | .unionT args => if args = [] then false else fixedAll args
  | .generic _ none => false
  | .generic _ (some args) => if args = [] then false else fixedAll args
  | .noneType => true
  | .concrete _ => true

def fixedAll : List TypeExpr → Bool
  | [] => true
  | a :: rest => fixedType a && fixedAll rest

end

theorem fixedAll_iff (l : List TypeExpr) :
    fixedAll l = true ↔ ∀ a ∈ l, fixedType a = true := by
  induction l with
  | nil => simp [fixedAll]
  | cons a l ih => simp [fixedAll, ih]

/-- _DataPipeType: the type-parameter wrapper, carrying the wrapped
expression and the derived fixedness flag. -/
structure DataPipeType where
  param : TypeExpr
  fixed : Bool
deriving DecidableEq

/-- _DataPipeType.__init__ (source lines 184-186): wrap and derive fixed. -/
def mkDataPipeType (p : TypeExpr) : DataPipeType := ⟨p, fixedType p⟩

/-- _DEFAULT_TYPE = _DataPipeType(Any) (source line 207). -/
def defaultDPT : DataPipeType := mkDataPipeType .anyT

/-- _DataPipeType.issubtype on another _DataPipeType (source lines 199-201):
both wrapped params are compared.  (_DataPipeType.__eq__ likewise compares
only the wrapped params.) -/
def dptIssubtype (a b : DataPipeType) : Bool := issubtype a.param b.param

/-- The possible resolved __init_subclass__ of a DataPipe class: the
fixed_type_init or nonfixed_type_init strategies installed by the
metaclass, or some unrelated user-supplied function. -/
inductive InitStrategy where
  | fixedInit
  | nonfixedInit
  | customInit (tag : Nat)
deriving DecidableEq

/-- The strategy __getitem__ installs for a given fixedness (source lines
275-282). -/
def strategyFor (fixd : Bool) : InitStrategy :=
  if fixd then .fixedInit else .nonfixedInit

/-- A class created by the _DataPipeMeta metaclass: its bound (the 'type'
attribute), its own resolved __init_subclass__, and the resolved
__init_subclass__ of the _DataPipeMeta classes after it in its mro.
Class names and reprs are cosmetic and not modelled; object identity is
modelled by whether __getitem__ returns self or constructs a new class. -/
structure DataPipeClass where
  tp : DataPipeType
  initStrat : InitStrategy
  baseStrats : List InitStrategy
deriving DecidableEq

/-- _mro_subclass_init(obj, fixed) (source lines 210-226): true exactly
when some _DataPipeMeta class in the mro of obj has the strategy matching
the requested fixedness as its resolved __init_subclass__. -/
def mroSubclassInit (c : DataPipeClass) (fixd : Bool) : Bool :=
  decide (strategyFor fixd ∈ c.initStrat :: c.baseStrats)

instance {e a : Type} [DecidableEq e] [DecidableEq a] : DecidableEq (Except e a) := fun x y =>
  match x, y with
  | .error e1, .error e2 =>
      if h : e1 = e2 then isTrue (by rw [h]) else isFalse (fun hh => h (Except.error.inj hh))
  | .ok v1, .ok v2 =>
      if h : v1 = v2 then isTrue (by rw [h]) else isFalse (fun hh => h (Except.ok.inj hh))
  | .error _, .ok _ => isFalse (fun hh => Except.noConfusion hh)
  | .ok _, .error _ => isFalse (fun hh => Except.noConfusion hh)

/-- The argument of __getitem__: None, a single type expression, or a
sequence of types. -/
inductive GParam where
  | noneParam
  | ofType (t : TypeExpr)
  | ofSeq (ts : List TypeExpr)
deriving DecidableEq

/-- The reference of the builtin tuple origin (Tuple[param] normalization,
source line 259). -/
def tupleRef : Nat := 7

/-- The type expression a non-None __getitem__ argument denotes after the
sequence-of-types normalization param = Tuple[param] (source lines
258-259). -/
def normParam : GParam → TypeExpr
  | .noneParam => .anyT
  | .ofType t => t
  | .ofSeq ts => .generic tupleRef (some ts)

/-- Failures of __getitem__: a None argument (source line 257), or an
incompatible specialization, which names the offending argument and the
current bound (source lines 263-265). -/
inductive GetItemError where
  | noneArgument
  | incompatible (argParam currentParam : TypeExpr)
deriving DecidableEq

/-- The new class built by __getitem__ (source lines 272-282): bound t,
strategy chosen from the fixedness of t, bases (self,) + self.__bases__. -/
def mkSpecialized (c : DataPipeClass) (t : DataPipeType) : DataPipeClass :=
  { tp := t
    initStrat := strategyFor t.fixed
    baseStrats := c.initStrat :: c.baseStrats }

/-- The body of _DataPipeMeta.__getitem__ after the None check and the
sequence normalization (source lines 260-282): wrap the argument, require
issubtype(t, self.type) (else raise naming both sides), return self when
self.type.issubtype(t) and the mro already carries the strategy matching
the fixedness of t, and otherwise build the specialized class.
The ok none result models "return self". -/
def getitemCore (c : DataPipeClass) (param : TypeExpr) :
    Except GetItemError (Option DataPipeClass) :=
  let t := mkDataPipeType param
  if dptIssubtype t c.tp = true then
    if dptIssubtype c.tp t = true ∧ mroSubclassInit c t.fixed = true then .ok none
    else .ok (some (mkSpecialized c t))
  else .error (.incompatible t.param c.tp.param)

/-- _DataPipeMeta.__getitem__(self, param) (source lines 254-282). -/
def getitem (c : DataPipeClass) (p : GParam) :
    Except GetItemError (Option DataPipeClass) :=
  match p with
  | .noneParam => .error .noneArgument
  | .ofType t0 => getitemCore c t0
  | .ofSeq ts => getitemCore c (.generic tupleRef (some ts))

/-- The class object a successful __getitem__ call hands back: self when
the original is returned unchanged, and the new class otherwise. -/
def applyGetitem (c : DataPipeClass) (p : GParam) :
    Except GetItemError DataPipeClass :=
  match getitem c p with
  | .error e => .error e
  | .ok none => .ok c
  | .ok (some c2) => .ok c2

/-- The reference of the Iterator origin. -/
def iteratorRef : Nat := 9

/-- Failures of _validate_iter: a missing return annotation while the bound
is not the default (source lines 303-304), a return annotation that is not
an Iterator form (source lines 310-314), and a declared element type that
is not mutually subtype-equal to the bound (source lines 316-320). -/
inductive IterValidationError where
  | missingReturnHint
  | expectedIteratorHint (found : TypeExpr)
  | unmatchedHint (boundParam declared : TypeExpr)
deriving DecidableEq

/-- _validate_iter(sub_cls) (source lines 296-320).  ownIter states whether
the class defines its own __iter__ in its namespace; dpt is the class's
bound; returnHint is the declared return annotation of __iter__, if any.
A parameterized Iterator whose argument list is empty is not constructible
in Python typing and is mapped to the not-an-Iterator failure here. -/
def validateIter (ownIter : Bool) (dpt : DataPipeType) (returnHint : Option TypeExpr) :
    Except IterValidationError Unit :=
  if ownIter = false then .ok ()
  else if ¬ (dpt.param = defaultDPT.param) ∧ returnHint = none then
    .error .missingReturnHint
  else
    match returnHint with
    | none => .ok ()
    | some rh =>
      if rh = .generic iteratorRef none then .ok ()
      else
        match rh with
        | .generic o (some (d :: _)) =>
            if o = iteratorRef then
              if issubtype dpt.param d = true ∧ issubtype d dpt.param = true then .ok ()
              else .error (.unmatchedHint dpt.param d)
            else .error (.expectedIteratorHint rh)
        | _ => .error (.expectedIteratorHint rh)

/-- An atomic type expression: neither a type variable nor a union (the
shapes whose expansion makes the subtype predicate non-compositional). -/
def atomicExpr : TypeExpr → Bool
  | .tvar _ _ _ => false
  | .unionT _ => false
  | _ => true

theorem type2abc_concrete_fix (r : Nat) :
    type2abc (type2abc (.concrete r)) = type2abc (.concrete r) := by
  match r with
  | 0 | 1 | 2 | 3 | 4 | 5 | 6 | 7 => rfl
  | n + 8 => rfl

theorem type2abc_concrete_big (n : Nat) :
    type2abc (.concrete (n + 8)) = .concrete (n + 8) := rfl

theorem type2abc_idem (x : TypeExpr) : type2abc (type2abc x) = type2abc x := by
  cases x with
  | concrete r => exact type2abc_concrete_fix r
  | anyT => rfl
  | noneType => rfl
  | tvar i b cs => rfl
  | unionT args => rfl
  | generic o a => rfl

theorem atomic_t2a {x : TypeExpr} (h : atomicExpr x = true) :
    atomicExpr (type2abc x) = true := by
  match x with
  | .concrete 0 | .concrete 1 | .concrete 2 | .concrete 3
  | .concrete 4 | .concrete 5 | .concrete 6 | .concrete 7 => rfl
  | .concrete (n + 8) => rfl
  | .tvar i b cs => simp [atomicExpr] at h
  | .unionT args => simp [atomicExpr] at h
  | .anyT => rfl
  | .noneType => rfl
  | .generic o a => rfl

theorem atomic_ne_tvar {x : TypeExpr} (h : atomicExpr x = true) (i : Nat)
    (b : Option TypeExpr) (cs : List TypeExpr) : x ≠ .tvar i b cs := by
  cases x <;> simp [atomicExpr] at h ⊢

theorem atomic_ne_union {x : TypeExpr} (h : atomicExpr x = true)
    (args : List TypeExpr) : x ≠ .unionT args := by
  cases x <;> simp [atomicExpr] at h ⊢

theorem t2a_eq_anyT_iff (x : TypeExpr) : type2abc x = .anyT ↔ x = .anyT := by
  match x with
  | .concrete 0 | .concrete 1 | .concrete 2 | .concrete 3
  | .concrete 4 | .concrete 5 | .concrete 6 | .concrete 7 => decide
  | .concrete (n + 8) => rw [type2abc_concrete_big]
  | .anyT => simp [type2abc_anyT]
  | .noneType => simp [type2abc_noneType]
  | .tvar i b cs => simp [type2abc_tvar]
  | .unionT args => simp [type2abc_unionT]
  | .generic o a => simp [type2abc_generic]

theorem t2a_eq_noneType_iff (x : TypeExpr) : type2abc x = .noneType ↔ x = .noneType := by
  match x with
  | .concrete 0 | .concrete 1 | .concrete 2 | .concrete 3
  | .concrete 4 | .concrete 5 | .concrete 6 | .concrete 7 => decide
  | .concrete (n + 8) => rw [type2abc_concrete_big]
  | .anyT => simp [type2abc_anyT]
  | .noneType => simp [type2abc_noneType]
  | .tvar i b cs => simp [type2abc_tvar]
  | .unionT args => simp [type2abc_unionT]
  | .generic o a => simp [type2abc_generic]

theorem innerExpand_atomic {x : TypeExpr} (h : atomicExpr x = true) :
    innerExpand x = none := by
  cases x with
  | tvar i b cs => simp [atomicExpr] at h
  | unionT args => simp [atomicExpr] at h
  | anyT => rfl
  | noneType => rfl
  | concrete r => rfl
  | generic o a => rfl

theorem sideList_t2a_atomic {x : TypeExpr} (h : atomicExpr x = true) :
    sideList (type2abc x) = [type2abc x] := by
  have h2 := atomic_t2a h
  have hi := type2abc_idem x
  cases hx : type2abc x with
  | tvar i b cs => rw [hx] at h2; simp [atomicExpr] at h2
  | unionT args => rw [hx] at h2; simp [atomicExpr] at h2
  | anyT => rfl
  | noneType => rfl
  | concrete r =>
      rw [hx] at hi
      simp [sideList, hi]
  | generic o a => rfl

/-- The decomposed origin of a constraint: a generic alias (bare or
parameterized) contributes its unparameterized form, anything else stands
for itself. -/
def cOriginOf : TypeExpr → TypeExpr
  | .generic o _ => .generic o none
  | t => t

theorem cOrigin_ne_anyT {c : TypeExpr} (hc : atomicExpr c = true)
    (hca : c ≠ .anyT) : cOriginOf c ≠ .anyT := by
  cases c <;> simp_all [cOriginOf, atomicExpr]

theorem vOrigin_ne_plain {v c : TypeExpr} (hvc : v ≠ c)
    (hg : ∀ o a, c ≠ .generic o a) : vOriginOf v ≠ c := by
  cases v with
  | generic o a =>
      cases a with
      | some args =>
          intro hh
          exact hg o none hh.symm
      | none => simpa [vOriginOf] using hvc
  | anyT => simpa [vOriginOf] using hvc
  | noneType => simpa [vOriginOf] using hvc
  | concrete r => simpa [vOriginOf] using hvc
  | tvar i b cs => simpa [vOriginOf] using hvc
  | unionT args => simpa [vOriginOf] using hvc

theorem iswcLoop_cons_skip {v c : TypeExpr} (hie : innerExpand c = none)
    (hg : ∀ o a, c ≠ .generic o a) (hvo : vOriginOf v ≠ c) (rest : List TypeExpr) :
    iswcLoop v (c :: rest) = iswcLoop v rest := by
  rw [iswcLoop_cons, hie]
  cases c with
  | generic co a => exact absurd rfl (hg co a)
  | anyT => rw [if_neg hvo]
  | noneType => rw [if_neg hvo]
  | concrete r => rw [if_neg hvo]
  | tvar i b cs => rw [if_neg hvo]
  | unionT args => simp [innerExpand] at hie

theorem iswcLoop_cons_atomic_skip {v c : TypeExpr} (hc : atomicExpr c = true)
    (hvo : vOriginOf v ≠ cOriginOf c) (rest : List TypeExpr) :
    iswcLoop v (c :: rest) = iswcLoop v rest := by
  cases c with
  | tvar i b cs => simp [atomicExpr] at hc
  | unionT args => simp [atomicExpr] at hc
  | anyT =>
      exact iswcLoop_cons_skip (c := .anyT) rfl (fun o a h => TypeExpr.noConfusion h)
        (by simpa [cOriginOf] using hvo) rest
  | noneType =>
      exact iswcLoop_cons_skip (c := .noneType) rfl (fun o a h => TypeExpr.noConfusion h)
        (by simpa [cOriginOf] using hvo) rest
  | concrete r =>
      exact iswcLoop_cons_skip (c := .concrete r) rfl (fun o a h => TypeExpr.noConfusion h)
        (by simpa [cOriginOf] using hvo) rest
  | generic co a =>
      cases a with
      | none =>
          rw [iswcLoop_cons_genericBare, if_neg (by simpa [cOriginOf] using hvo)]
      | some cargs =>
          cases hva : vArgsOf v with
          | none =>
              rw [iswcLoop_cons_genericArgs_none hva,
                if_neg (by simpa [cOriginOf] using hvo)]
          | some vargs =>
              rw [iswcLoop_cons_genericArgs_some hva,
                if_neg (by simpa [cOriginOf] using hvo)]

theorem issubtype_any_right (X : TypeExpr) : issubtype X .anyT = true := by
  rw [issubtype_eq]
  simp [type2abc_anyT]

theorem issubtype_any_left {B : TypeExpr} (hB : atomicExpr B = true)
    (hBa : type2abc B ≠ .anyT) : issubtype .anyT B = false := by
  rw [issubtype_eq]
  have hc1 : ¬ (type2abc B = .anyT ∨ type2abc TypeExpr.anyT = type2abc B) := by
    rintro (h | h)
    · exact hBa h
    · rw [type2abc_anyT] at h
      exact hBa h.symm
  rw [if_neg hc1]
  by_cases hbn : type2abc B = .noneType
  · rw [if_pos hbn]
  · rw [if_neg hbn]
    rw [if_neg (by
      simp only [sideList_t2a_atomic hB, List.mem_singleton]
      rintro (h | h)
      · exact absurd h (by simp)
      · exact hBa h.symm)]
    rw [if_pos type2abc_anyT]

theorem issubtype_noneType_right_false {X : TypeExpr} (hXn : X ≠ .noneType) :
    issubtype X .noneType = false := by
  rw [issubtype_eq]
  have hc : ¬ (type2abc TypeExpr.noneType = .anyT ∨ type2abc X = type2abc .noneType) := by
    rintro (h | h)
    · exact absurd h (by simp [type2abc_noneType])
    · rw [type2abc_noneType] at h
      exact hXn ((t2a_eq_noneType_iff X).mp h)
  rw [if_neg hc, if_pos type2abc_noneType]

/-- For atomic variant and constraint, the matching helper applied to the
singleton constraint list agrees with the full subtype predicate. -/
theorem iswc_singleton (A C : TypeExpr) (hA : atomicExpr A = true)
    (hC : atomicExpr C = true) (hCa : type2abc C ≠ .anyT) :
    iswc (type2abc A) [type2abc C] = issubtype A C := by
  have hA' := atomic_t2a hA
  have hC' := atomic_t2a hC
  have hieA : innerExpand (type2abc A) = none := innerExpand_atomic hA'
  conv_rhs => rw [issubtype_eq]
  by_cases hac : type2abc A = type2abc C
  · rw [if_pos (Or.inr hac)]
    rw [iswc_eq_none hieA, if_pos (by simp [hac])]
  · rw [if_neg (show ¬ (type2abc C = .anyT ∨ type2abc A = type2abc C) by
      rintro (h | h)
      · exact hCa h
      · exact hac h)]
    by_cases hcn : type2abc C = .noneType
    · rw [if_pos hcn]
      rw [iswc_eq_none hieA, if_neg (by simp [hac])]
      rw [hcn]
      have hvo : vOriginOf (type2abc A) ≠ cOriginOf .noneType := by
        simp only [cOriginOf]
        exact vOrigin_ne_plain (fun hh => hac (hh.trans hcn.symm))
          (fun o a h => TypeExpr.noConfusion h)
      rw [iswcLoop_cons_atomic_skip (c := .noneType) rfl hvo, iswcLoop_nil]
    · rw [if_neg hcn]
      rw [if_neg (by
        simp only [sideList_t2a_atomic hC, List.mem_singleton]
        rintro (h | h)
        · exact absurd h (by simp)
        · exact hCa h.symm)]
      by_cases haa : type2abc A = .anyT
      · rw [if_pos haa]
        rw [iswc_eq_none hieA, if_neg (by simp [hac]), haa]
        have hvo : vOriginOf TypeExpr.anyT ≠ cOriginOf (type2abc C) := by
          have hne := cOrigin_ne_anyT hC' hCa
          simp only [vOriginOf]
          exact fun hh => hne hh.symm
        rw [iswcLoop_cons_atomic_skip hC' hvo, iswcLoop_nil]
      · rw [if_neg haa]
        rw [if_neg (by simp [sideList_t2a_atomic hA])]
        rw [sideList_t2a_atomic hA, sideList_t2a_atomic hC,
          iswcAll_cons, iswcAll_nil, Bool.and_true]

/-- For an atomic variant and atomic constraints, the constraint loop over a
two-element constraint list splits as a disjunction of the singleton
cases. -/
theorem iswc_pair (v c1 c2 : TypeExpr) (hv : atomicExpr v = true)
    (h1 : atomicExpr c1 = true) (h2 : atomicExpr c2 = true) :
    iswc v [c1, c2] = (iswc v [c1] || iswc v [c2]) := by
  have hie : innerExpand v = none := innerExpand_atomic hv
  rw [iswc_eq_none hie, iswc_eq_none hie, iswc_eq_none hie]
  by_cases m1 : v = c1
  · simp [m1]
  · by_cases m2 : v = c2
    · simp [m1, m2]
    · rw [if_neg (by simp [m1, m2]), if_neg (by simp [m1]), if_neg (by simp [m2])]
      cases c1 with
      | tvar i b cs => simp [atomicExpr] at h1
      | unionT args => simp [atomicExpr] at h1
      | anyT =>
          have hvo := vOrigin_ne_plain m1 (fun o a h => TypeExpr.noConfusion h)
          rw [iswcLoop_cons_skip (c := .anyT) rfl (fun o a h => TypeExpr.noConfusion h) hvo,
            iswcLoop_cons_skip (c := .anyT) rfl (fun o a h => TypeExpr.noConfusion h) hvo,
            iswcLoop_nil, Bool.false_or]
      | noneType =>
          have hvo := vOrigin_ne_plain m1 (fun o a h => TypeExpr.noConfusion h)
          rw [iswcLoop_cons_skip (c := .noneType) rfl (fun o a h => TypeExpr.noConfusion h) hvo,
            iswcLoop_cons_skip (c := .noneType) rfl (fun o a h => TypeExpr.noConfusion h) hvo,
            iswcLoop_nil, Bool.false_or]
      | concrete r =>
          have hvo := vOrigin_ne_plain m1 (fun o a h => TypeExpr.noConfusion h)
          rw [iswcLoop_cons_skip (c := .concrete r) rfl (fun o a h => TypeExpr.noConfusion h) hvo,
            iswcLoop_cons_skip (c := .concrete r) rfl (fun o a h => TypeExpr.noConfusion h) hvo,
            iswcLoop_nil, Bool.false_or]
      | generic co a =>
          cases a with
          | none =>
              rw [iswcLoop_cons_genericBare, iswcLoop_cons_genericBare]
              by_cases hvo : vOriginOf v = .generic co none
              · simp [hvo]
              · rw [if_neg hvo, if_neg hvo, iswcLoop_nil, Bool.false_or]
          | some cargs =>
              cases hva : vArgsOf v with
              | none =>
                  rw [iswcLoop_cons_genericArgs_none hva, iswcLoop_cons_genericArgs_none hva]
                  by_cases hvo : vOriginOf v = .generic co none
                  · simp [hvo]
                  · rw [if_neg hvo, if_neg hvo, iswcLoop_nil, Bool.false_or]
              | some vargs =>
                  rw [iswcLoop_cons_genericArgs_some hva, iswcLoop_cons_genericArgs_some hva]
                  by_cases hvo : vOriginOf v = .generic co none
                  · by_cases hce : cargs = []
                    · simp [hvo, hce]
                    · by_cases hlen : vargs.length = cargs.length ∧ argsIssub vargs cargs = true
                      · simp [hvo, hce, hlen]
                      · rw [if_pos hvo, if_pos hvo, if_neg hce, if_neg hce,
                          if_neg hlen, if_neg hlen, iswcLoop_nil, Bool.false_or]
                  · rw [if_neg hvo, if_neg hvo, iswcLoop_nil, Bool.false_or]

/-- Claim C4, counterexample: at A = Union[int, str], B = int, C = str the
second union law fails: issubtype(A, Union[B, C]) is true (the left side
equals the right side structurally), while issubtype(A, B) and
issubtype(A, C) are both false — so the claimed equality with the
disjunction does not hold for all A, B, C. -/
theorem claim_C4_counterexample :
    issubtype (.unionT [.concrete 1, .concrete 8]) (.unionT [.concrete 1, .concrete 8]) = true ∧
    issubtype (.unionT [.concrete 1, .concrete 8]) (.concrete 1) = false ∧
    issubtype (.unionT [.concrete 1, .concrete 8]) (.concrete 8) = false :=
  ⟨by decide, by decide, by decide⟩

/-- Claim C4, amended: the union laws hold for atomic A, B, C — type
expressions that are neither type variables nor unions — with the one
exception that the first law also requires A, B, C not all equal to the
null type (a union of two null types is not constructible in Python
typing, where Union collapses duplicates):
issubtype(Union[A,B], C) = issubtype(A,C) and issubtype(B,C), and
issubtype(A, Union[B,C]) = issubtype(A,B) or issubtype(A,C). -/
theorem claim_C4_amended (A B C : TypeExpr) (hA : atomicExpr A = true)
    (hB : atomicExpr B = true) (hC : atomicExpr C = true) :
    (¬ (A = .noneType ∧ B = .noneType ∧ C = .noneType) →
      issubtype (.unionT [A, B]) C = (issubtype A C && issubtype B C)) ∧
    issubtype A (.unionT [B, C]) = (issubtype A B || issubtype A C) := by
  constructor
  · intro hexc
    by_cases hCany : type2abc C = .anyT
    · have hCC : C = .anyT := (t2a_eq_anyT_iff C).mp hCany
      subst hCC
      rw [issubtype_any_right, issubtype_any_right, issubtype_any_right]
      rfl
    · by_cases hCn : C = .noneType
      · subst hCn
        have hL : issubtype (.unionT [A, B]) .noneType = false :=
          issubtype_noneType_right_false (by simp)
        by_cases hAn : A = .noneType
        · have hBn : B ≠ .noneType := fun hb => hexc ⟨hAn, hb, rfl⟩
          rw [hL, issubtype_noneType_right_false hBn, Bool.and_false]
        · rw [hL, issubtype_noneType_right_false hAn, Bool.false_and]
      · have hCn' : type2abc C ≠ .noneType :=
          fun hh => hCn ((t2a_eq_noneType_iff C).mp hh)
        conv_lhs => rw [issubtype_eq]
        rw [if_neg (show ¬ (type2abc C = .anyT ∨
            type2abc (.unionT [A, B]) = type2abc C) by
          rintro (h | h)
          · exact hCany h
          · rw [type2abc_unionT] at h
            exact atomic_ne_union (atomic_t2a hC) [A, B] h.symm)]
        rw [if_neg hCn']
        rw [if_neg (show ¬ (sideList (type2abc C) = [] ∨
            .anyT ∈ sideList (type2abc C)) by
          simp only [sideList_t2a_atomic hC, List.mem_singleton]
          rintro (h | h)
          · exact absurd h (by simp)
          · exact hCany h.symm)]
        rw [if_neg (show ¬ (type2abc (.unionT [A, B]) = .anyT) by
          simp [type2abc_unionT])]
        rw [if_neg (show ¬ (sideList (type2abc (.unionT [A, B])) = []) by
          simp [type2abc_unionT, sideList])]
        rw [type2abc_unionT,
          show sideList (.unionT [A, B]) = [type2abc A, type2abc B] from rfl,
          sideList_t2a_atomic hC, iswcAll_cons, iswcAll_cons, iswcAll_nil,
          Bool.and_true]
        rw [iswc_singleton A C hA hC hCany, iswc_singleton B C hB hC hCany]
  · by_cases hBany : type2abc B = .anyT
    · have hBB : B = .anyT := (t2a_eq_anyT_iff B).mp hBany
      subst hBB
      rw [issubtype_any_right, Bool.true_or]
      rw [issubtype_eq]
      rw [if_neg (show ¬ (type2abc (.unionT [.anyT, C]) = .anyT ∨
          type2abc A = type2abc (.unionT [.anyT, C])) by
        rintro (h | h)
        · rw [type2abc_unionT] at h
          exact absurd h (by simp)
        · rw [type2abc_unionT] at h
          exact atomic_ne_union (atomic_t2a hA) [.anyT, C] h)]
      rw [if_neg (show ¬ (type2abc (.unionT [.anyT, C]) = .noneType) by
        simp [type2abc_unionT])]
      rw [if_pos (show sideList (type2abc (.unionT [.anyT, C])) = [] ∨
          .anyT ∈ sideList (type2abc (.unionT [.anyT, C])) by
        rw [type2abc_unionT]
        right
        simp [sideList, type2abc_anyT])]
    · by_cases hCany2 : type2abc C = .anyT
      · have hCC : C = .anyT := (t2a_eq_anyT_iff C).mp hCany2
        subst hCC
        rw [issubtype_any_right, Bool.or_true]
        rw [issubtype_eq]
        rw [if_neg (show ¬ (type2abc (.unionT [B, .anyT]) = .anyT ∨
            type2abc A = type2abc (.unionT [B, .anyT])) by
          rintro (h | h)
          · rw [type2abc_unionT] at h
            exact absurd h (by simp)
          · rw [type2abc_unionT] at h
            exact atomic_ne_union (atomic_t2a hA) [B, .anyT] h)]
        rw [if_neg (show ¬ (type2abc (.unionT [B, .anyT]) = .noneType) by
          simp [type2abc_unionT])]
        rw [if_pos (show sideList (type2abc (.unionT [B, .anyT])) = [] ∨
            .anyT ∈ sideList (type2abc (.unionT [B, .anyT])) by
          rw [type2abc_unionT]
          right
          simp [sideList, type2abc_anyT])]
      · by_cases hAany : type2abc A = .anyT
        · have hAA : A = .anyT := (t2a_eq_anyT_iff A).mp hAany
          subst hAA
          rw [issubtype_any_left hB hBany, issubtype_any_left hC hCany2,
            Bool.false_or]
          rw [issubtype_eq]
          rw [if_neg (show ¬ (type2abc (.unionT [B, C]) = .anyT ∨
              type2abc TypeExpr.anyT = type2abc (.unionT [B, C])) by
            rintro (h | h)
            · rw [type2abc_unionT] at h
              exact absurd h (by simp)
            · rw [type2abc_unionT, type2abc_anyT] at h
              exact absurd h (by simp))]
          rw [if_neg (show ¬ (type2abc (.unionT [B, C]) = .noneType) by
            simp [type2abc_unionT])]
          rw [if_neg (show ¬ (sideList (type2abc (.unionT [B, C])) = [] ∨
              .anyT ∈ sideList (type2abc (.unionT [B, C]))) by
            rw [type2abc_unionT,
              show sideList (.unionT [B, C]) = [type2abc B, type2abc C] from rfl]
            rintro (h | h)
            · exact absurd h (by simp)
            · simp only [List.mem_cons, List.mem_singleton, List.not_mem_nil,
                or_false] at h
              rcases h with h | h
              · exact hBany h.symm
              · exact hCany2 h.symm)]
          rw [if_pos type2abc_anyT]
        · conv_lhs => rw [issubtype_eq]
          rw [if_neg (show ¬ (type2abc (.unionT [B, C]) = .anyT ∨
              type2abc A = type2abc (.unionT [B, C])) by
            rintro (h | h)
            · rw [type2abc_unionT] at h
              exact absurd h (by simp)
            · rw [type2abc_unionT] at h
              exact atomic_ne_union (atomic_t2a hA) [B, C] h)]
          rw [if_neg (show ¬ (type2abc (.unionT [B, C]) = .noneType) by
            simp [type2abc_unionT])]
          rw [if_neg (show ¬ (sideList (type2abc (.unionT [B, C])) = [] ∨
              .anyT ∈ sideList (type2abc (.unionT [B, C]))) by
            rw [type2abc_unionT,
              show sideList (.unionT [B, C]) = [type2abc B, type2abc C] from rfl]
            rintro (h | h)
            · exact absurd h (by simp)
            · simp only [List.mem_cons, List.mem_singleton, List.not_mem_nil,
                or_false] at h
              rcases h with h | h
              · exact hBany h.symm
              · exact hCany2 h.symm)]
          rw [if_neg hAany]
          rw [if_neg (by simp [sideList_t2a_atomic hA])]
          rw [type2abc_unionT,
            show sideList (.unionT [B, C]) = [type2abc B, type2abc C] from rfl,
            sideList_t2a_atomic hA, iswcAll_cons, iswcAll_nil, Bool.and_true]
          rw [iswc_pair (type2abc A) (type2abc B) (type2abc C)
            (atomic_t2a hA) (atomic_t2a hB) (atomic_t2a hC)]
          rw [iswc_singleton A B hA hB hBany, iswc_singleton A C hA hC hCany2]

/-- Claim C4, witness: the amended union laws instantiated at int, str and
the real-number category. -/
theorem claim_C4_witness :
    issubtype (.unionT [.concrete 1, .concrete 8]) (.concrete 1) =
      (issubtype (.concrete 1) (.concrete 1) && issubtype (.concrete 8) (.concrete 1)) ∧
    issubtype (.concrete 1) (.unionT [.concrete 8, .concrete 2]) =
      (issubtype (.concrete 1) (.concrete 8) || issubtype (.concrete 1) (.concrete 2)) :=
  ⟨(claim_C4_amended (.concrete 1) (.concrete 8) (.concrete 1)
      (by decide) (by decide) (by decide)).1 (by decide),
   (claim_C4_amended (.concrete 1) (.concrete 8) (.concrete 2)
      (by decide) (by decide) (by decide)).2⟩

/-- Claim C3, counterexample: issubtype(Any, X) is TRUE for the
unconstrained type variable X = T_co (empty bound and empty constraint
list), although X is not Any — the expansion of such a right side is the
empty constraint set, which the checker treats as satisfied.  This refutes
the claim that issubtype(Any, X) is false for every X other than Any,
including every type variable. -/
theorem claim_C3_counterexample :
    issubtype .anyT (.tvar 0 none []) = true ∧
      (TypeExpr.tvar 0 none [] : TypeExpr) ≠ .anyT :=
  ⟨by decide, by decide⟩

/-- Claim C3, amended: issubtype(X, Any) is true for every X; and
issubtype(Any, X) is true exactly when X normalizes to Any, or the
constraint expansion of X is empty (an unconstrained type variable), or
that expansion contains Any (for example a union with an Any member or a
variable bounded by Any) — and is false for every other X. -/
theorem claim_C3_amended (X : TypeExpr) :
    issubtype X .anyT = true ∧
    (issubtype .anyT X = true ↔
      (type2abc X = .anyT ∨ sideList (type2abc X) = [] ∨
        .anyT ∈ sideList (type2abc X))) := by
  constructor
  · rw [issubtype_eq]
    simp [type2abc]
  · rw [issubtype_eq]
    by_cases h1 : type2abc X = .anyT
    · simp [type2abc_anyT, h1]
    · have h1b : ¬ (type2abc TypeExpr.anyT = type2abc X) := by
        simp only [type2abc_anyT]
        exact fun hh => h1 hh.symm
      by_cases h3 : sideList (type2abc X) = [] ∨ .anyT ∈ sideList (type2abc X)
      · have hnn : ¬ (type2abc X = .noneType) := by
          intro hn
          rw [hn] at h3
          simp [sideList, type2abc_noneType] at h3
        simp [h1, h1b, hnn, h3]
      · by_cases h2 : type2abc X = .noneType
        · simp [h1, h1b, h2, h3, type2abc_anyT, sideList, type2abc_noneType]
        · simp [h1, Ne.symm h1, h2, h3, type2abc_anyT]

/-- Claim C5: for every generic origin G and all type expressions A and B,
issubtype(G[A], G[B]) = issubtype(A, B): parameterized generics with the
same origin compare covariantly in their argument. -/
theorem claim_C5 (g : Nat) (A B : TypeExpr) :
    issubtype (.generic g (some [A])) (.generic g (some [B])) = issubtype A B := by
  by_cases hAB : A = B
  · subst hAB
    rw [issubtype_refl A]
    conv_lhs => rw [issubtype_eq]
    simp [type2abc]
  · conv_lhs => rw [issubtype_eq]
    have c1 : ¬ (type2abc (.generic g (some [B])) = .anyT ∨
        type2abc (.generic g (some [A])) = type2abc (.generic g (some [B]))) := by
      simp [type2abc, hAB]
    rw [if_neg c1]
    have c2 : ¬ (type2abc (TypeExpr.generic g (some [B])) = .noneType) := by
      simp [type2abc]
    rw [if_neg c2]
    have c3 : ¬ (sideList (type2abc (.generic g (some [B]))) = [] ∨
        .anyT ∈ sideList (type2abc (.generic g (some [B])))) := by
      simp [sideList, type2abc]
    rw [if_neg c3]
    have c4 : ¬ (type2abc (TypeExpr.generic g (some [A])) = .anyT) := by
      simp [type2abc]
    rw [if_neg c4]
    have c5 : ¬ (sideList (type2abc (.generic g (some [A]))) = []) := by
      simp [sideList, type2abc]
    rw [if_neg c5]
    have e1 : sideList (type2abc (.generic g (some [A]))) = [.generic g (some [A])] := by
      simp [sideList, type2abc]
    have e2 : sideList (type2abc (.generic g (some [B]))) = [.generic g (some [B])] := by
      simp [sideList, type2abc]
    rw [e1, e2, iswcAll_cons, iswcAll_nil, Bool.and_true]
    rw [iswc_eq_none (v := .generic g (some [A])) rfl]
    have m1 : ¬ ((TypeExpr.generic g (some [A])) ∈ [TypeExpr.generic g (some [B])]) := by
      simp [hAB]
    rw [if_neg m1]
    rw [iswcLoop_cons_genericArgs_some (v := .generic g (some [A])) rfl]
    have ho : vOriginOf (TypeExpr.generic g (some [A])) = .generic g none := rfl
    rw [if_pos ho]
    have hc : ¬ (([B] : List TypeExpr) = []) := by simp
    rw [if_neg hc]
    rw [argsIssub_cons, argsIssub_nil_left, Bool.and_true]
    cases hiss : issubtype A B with
    | true => simp [hiss, iswcLoop_nil]
    | false => simp [hiss, iswcLoop_nil]

/-- Claim C6: for every generic origin G and every argument list, an
unparameterized (open) generic on the right accepts a parameterized generic
of the same origin: issubtype(G[args], G) is true. -/
theorem claim_C6 (g : Nat) (args : List TypeExpr) :
    issubtype (.generic g (some args)) (.generic g none) = true := by
  rw [issubtype_eq]
  have c1 : ¬ (type2abc (TypeExpr.generic g none) = .anyT ∨
      type2abc (.generic g (some args)) = type2abc (.generic g none)) := by
    simp [type2abc]
  rw [if_neg c1]
  have c2 : ¬ (type2abc (TypeExpr.generic g none) = .noneType) := by simp [type2abc]
  rw [if_neg c2]
  have c3 : ¬ (sideList (type2abc (.generic g none)) = [] ∨
      .anyT ∈ sideList (type2abc (.generic g none))) := by
    simp [sideList, type2abc]
  rw [if_neg c3]
  have c4 : ¬ (type2abc (TypeExpr.generic g (some args)) = .anyT) := by simp [type2abc]
  rw [if_neg c4]
  have c5 : ¬ (sideList (type2abc (.generic g (some args))) = []) := by
    simp [sideList, type2abc]
  rw [if_neg c5]
  have e1 : sideList (type2abc (.generic g (some args))) = [.generic g (some args)] := by
    simp [sideList, type2abc]
  have e2 : sideList (type2abc (.generic g none)) = [.generic g none] := by
    simp [sideList, type2abc]
  rw [e1, e2, iswcAll_cons, iswcAll_nil, Bool.and_true]
  rw [iswc_eq_none (v := .generic g (some args)) rfl]
  have m1 : ¬ ((TypeExpr.generic g (some args)) ∈ [TypeExpr.generic g none]) := by simp
  rw [if_neg m1]
  rw [iswcLoop_cons_genericBare]
  have ho : vOriginOf (TypeExpr.generic g (some args)) = .generic g none := rfl
  rw [if_pos ho]

/-- Claim C7: the derived fixedness of the type-parameter wrapper: a type
variable or Any is not fixed; a union is fixed only if every member is
fixed; a parameterized generic is fixed exactly when its argument list is
nonempty and every argument is recursively fixed; an empty-argument (open)
generic is never fixed; and the remaining concrete leaves are fixed. -/
theorem claim_C7 (i o ref : Nat) (b : Option TypeExpr)
    (cs args margs : List TypeExpr) :
    fixedType (.tvar i b cs) = false ∧
    fixedType .anyT = false ∧
    (fixedType (.unionT margs) = true → ∀ a ∈ margs, fixedType a = true) ∧
    (fixedType (.generic o (some args)) = true ↔
      (args ≠ [] ∧ ∀ a ∈ args, fixedType a = true)) ∧
    fixedType (.generic o none) = false ∧
    fixedType (.concrete ref) = true ∧
    fixedType .noneType = true := by
  refine ⟨rfl, rfl, ?_, ?_, rfl, rfl, rfl⟩
  · intro h
    rw [show fixedType (.unionT margs) =
        (if margs = [] then false else fixedAll margs) from rfl] at h
    by_cases hm : margs = []
    · rw [if_pos hm] at h
      exact absurd h (by simp)
    · rw [if_neg hm] at h
      exact (fixedAll_iff margs).mp h
  · rw [show fixedType (.generic o (some args)) =
        (if args = [] then false else fixedAll args) from rfl]
    by_cases ha : args = []
    · subst ha
      simp
    · rw [if_neg ha]
      simp [fixedAll_iff, ha]

/-- Claim C7, witness: instantiating the union clause at Union[str] shows
str is fixed. -/
theorem claim_C7_witness : fixedType (.concrete 8) = true :=
  ((claim_C7 0 0 0 none [] [] [.concrete 8]).2.2.1 (by decide)) (.concrete 8) (by decide)

/-- Claim C8: for every class defining its own production method and
declaring no element type, finalization fails with the missing-annotation
error exactly when the bound is not the default Any, and succeeds when the
bound is the default Any; a class not defining its own production method is
never validated. -/
theorem claim_C8 (dpt : DataPipeType) (rh : Option TypeExpr) :
    validateIter true dpt none =
      (if dpt.param = .anyT then .ok () else .error .missingReturnHint) ∧
    validateIter false dpt rh = .ok () := by
  constructor
  · by_cases h : dpt.param = .anyT
    · simp [validateIter, defaultDPT, mkDataPipeType, h]
    · simp [validateIter, defaultDPT, mkDataPipeType, h]
  · simp [validateIter]

/-- Claim C9: for every class defining its own production method with
declared element type E (annotation Iterator[E]), finalization succeeds
exactly when E and the bound are mutually subtype-equal, and otherwise
fails with the mismatch error naming the bound and E. -/
theorem claim_C9 (dpt : DataPipeType) (E : TypeExpr) :
    validateIter true dpt (some (.generic iteratorRef (some [E]))) =
      (if issubtype dpt.param E = true ∧ issubtype E dpt.param = true then .ok ()
       else .error (.unmatchedHint dpt.param E)) := by
  simp [validateIter, iteratorRef]

/-- Claim C10 (implicit in the source): when the declared return annotation
is exactly the bare unparameterized Iterator, validation returns
successfully with no subtype comparison against the bound, whatever the
bound is — neither the missing-annotation nor the mismatch error can be
raised for such a class. -/
theorem claim_C10 (dpt : DataPipeType) :
    validateIter true dpt (some (.generic iteratorRef none)) = .ok () := by
  simp [validateIter]

/-- Claim C1, counterexample: for the class with bound int (reachable as
Root[int], carrying the fixed strategy) and the argument Integer,
issubtype(Integer, int) holds after normalization, the specialization
succeeds — but by returning the original class unchanged, so the resulting
class's bound is int and NOT exactly the argument Integer.  This refutes
"when it succeeds the resulting class's bound is exactly T2". -/
theorem claim_C1_counterexample :
    getitem (⟨mkDataPipeType (.concrete 1), .fixedInit, [.nonfixedInit]⟩ : DataPipeClass)
        (.ofType (.concrete 101)) = .ok none ∧
    (⟨mkDataPipeType (.concrete 1), .fixedInit, [.nonfixedInit]⟩ : DataPipeClass).tp.param
        ≠ .concrete 101 ∧
    issubtype (.concrete 101) (.concrete 1) = true :=
  ⟨by decide, by decide, by decide⟩

theorem getitemCore_spec (c : DataPipeClass) (X : TypeExpr) :
    (issubtype X c.tp.param = false →
        getitemCore c X = .error (.incompatible X c.tp.param)) ∧
    (issubtype X c.tp.param = true →
        (getitemCore c X = .ok none ∧ issubtype c.tp.param X = true) ∨
        (∃ c2, getitemCore c X = .ok (some c2) ∧ c2.tp.param = X)) := by
  constructor
  · intro h
    simp only [getitemCore]
    have hcond : ¬ (dptIssubtype (mkDataPipeType X) c.tp = true) := by
      simp [dptIssubtype, mkDataPipeType, h]
    rw [if_neg hcond]
    rfl
  · intro h
    simp only [getitemCore]
    rw [if_pos (by simp [dptIssubtype, mkDataPipeType, h])]
    by_cases h2 : dptIssubtype c.tp (mkDataPipeType X) = true ∧
        mroSubclassInit c (mkDataPipeType X).fixed = true
    · rw [if_pos h2]
      left
      exact ⟨rfl, by simpa [dptIssubtype, mkDataPipeType] using h2.1⟩
    · rw [if_neg h2]
      right
      exact ⟨mkSpecialized c (mkDataPipeType X), rfl, rfl⟩

/-- Claim C1, amended: for every class C with bound T and every non-None
argument, C[T2] succeeds if and only if issubtype(T2, T) holds for the
normalized argument T2 (raising the incompatible-specialization error
naming both sides otherwise); on success, either the original class is
returned unchanged — in which case T is mutually subtype-equal to T2 but
the bound stays T — or a new class is created whose bound is exactly T2
(after sequence-of-types normalization into a tuple generic). -/
theorem claim_C1_amended (c : DataPipeClass) (p : GParam) (hp : p ≠ .noneParam) :
    (issubtype (normParam p) c.tp.param = false →
        getitem c p = .error (.incompatible (normParam p) c.tp.param)) ∧
    (issubtype (normParam p) c.tp.param = true →
        (getitem c p = .ok none ∧ issubtype c.tp.param (normParam p) = true) ∨
        (∃ c2, getitem c p = .ok (some c2) ∧ c2.tp.param = normParam p)) := by
  cases p with
  | noneParam => exact absurd rfl hp
  | ofType t0 =>
      simpa only [getitem, normParam] using getitemCore_spec c t0
  | ofSeq ts =>
      simpa only [getitem, normParam] using
        getitemCore_spec c (.generic tupleRef (some ts))

/-- Claim C1, witness: the root class with bound Any rejects nothing, and a
class with bound int rejects str with the error naming both sides. -/
theorem claim_C1_witness :
    getitem (⟨mkDataPipeType (.concrete 1), .fixedInit, [.nonfixedInit]⟩ : DataPipeClass)
        (.ofType (.concrete 8)) = .error (.incompatible (.concrete 8) (.concrete 1)) :=
  (claim_C1_amended ⟨mkDataPipeType (.concrete 1), .fixedInit, [.nonfixedInit]⟩
    (.ofType (.concrete 8)) (by decide)).1 (by decide)

/-- Claim C2: specialization is idempotent on object identity: whenever
C[T] succeeds and hands back the class c1, the repeated specialization
c1[T] returns c1 itself unchanged (the ok-none result models "return
self"); and more generally, whenever the argument is mutually subtype-equal
to the current bound and the class's own constructor strategy matches the
argument's fixedness, no new class is created and the original class is
returned unchanged. -/
theorem claim_C2 (c : DataPipeClass) (t : TypeExpr) (c1 : DataPipeClass) :
    (applyGetitem c (.ofType t) = .ok c1 → getitem c1 (.ofType t) = .ok none) ∧
    ((dptIssubtype (mkDataPipeType t) c.tp = true ∧
      dptIssubtype c.tp (mkDataPipeType t) = true ∧
      c.initStrat = strategyFor (fixedType t)) →
      getitem c (.ofType t) = .ok none) := by
  have self_ret : ∀ d : DataPipeClass, d.tp.param = t →
      d.initStrat = strategyFor (fixedType t) → getitem d (.ofType t) = .ok none := by
    intro d hd hs
    simp only [getitem, getitemCore]
    have hfwd : dptIssubtype (mkDataPipeType t) d.tp = true := by
      simp [dptIssubtype, mkDataPipeType, hd, issubtype_refl]
    have hrev : dptIssubtype d.tp (mkDataPipeType t) = true := by
      simp [dptIssubtype, mkDataPipeType, hd, issubtype_refl]
    have hmro : mroSubclassInit d (mkDataPipeType t).fixed = true := by
      simp [mroSubclassInit, mkDataPipeType, hs]
    rw [if_pos hfwd, if_pos ⟨hrev, hmro⟩]
  constructor
  · intro h
    unfold applyGetitem at h
    cases hg : getitem c (.ofType t) with
    | error e => rw [hg] at h; exact absurd h (by simp)
    | ok oc =>
      cases oc with
      | none =>
          rw [hg] at h
          simp only [Except.ok.injEq] at h
          subst h
          exact hg
      | some c2 =>
          rw [hg] at h
          simp only [Except.ok.injEq] at h
          subst h
          simp only [getitem, getitemCore] at hg
          split_ifs at hg with h1 h2
          · exact absurd hg (by simp)
          · simp only [Except.ok.injEq, Option.some.injEq] at hg
            subst hg
            exact self_ret _ rfl rfl
  · intro h
    simp only [getitem, getitemCore]
    have hmro : mroSubclassInit c (mkDataPipeType t).fixed = true := by
      simp [mroSubclassInit, mkDataPipeType, h.2.2]
    rw [if_pos h.1, if_pos ⟨h.2.1, hmro⟩]

/-- Claim C2, witness: the root template with bound Any and matching
nonfixed strategy is returned unchanged at argument Any, and the class
produced by Root[int] is returned unchanged when specialized again at
int. -/
theorem claim_C2_witness :
    getitem (⟨defaultDPT, .nonfixedInit, []⟩ : DataPipeClass) (.ofType .anyT) = .ok none ∧
    getitem (⟨mkDataPipeType (.concrete 1), .fixedInit, [.nonfixedInit]⟩ : DataPipeClass)
      (.ofType (.concrete 1)) = .ok none :=
  ⟨(claim_C2 ⟨defaultDPT, .nonfixedInit, []⟩ .anyT
      ⟨defaultDPT, .nonfixedInit, []⟩).2 ⟨by decide, by decide, by decide⟩,
   (claim_C2 (⟨defaultDPT, .nonfixedInit, []⟩ : DataPipeClass) (.concrete 1)
      ⟨mkDataPipeType (.concrete 1), .fixedInit, [.nonfixedInit]⟩).1 (by decide)⟩

end DataPipeTyping
